import Mathlib

/-!
Verification of the core logic of a browser-based video trimmer front-end:
URL identifier extraction, synthetic duration derivation, synthetic media
buffer synthesis, filename construction, and the download guard.

All definitions are shallow embeddings of the functions in `src/src/App.tsx`.
JavaScript 32-bit integer coercions are modelled on `Int`, byte buffers as
`List Nat`, and strings as `List Char` (one `Char` per UTF-16 code unit of
the inputs considered, all of which lie in the BMP).
-/

namespace YtTrim

/-- JavaScript `ToInt32`: wrap an integer to the range `[-2^31, 2^31)`,
congruent mod `2^32`. -/
def toInt32 (x : Int) : Int :=
  (x + 2 ^ 31) % 2 ^ 32 - 2 ^ 31

/-- One step of the reduce in `getVideoDuration` (App.tsx lines 51-54):
`a = ((a << 5) - a) + charCode; return a & a`.  The shift `a << 5` coerces
its operand to int32 and wraps the shifted result to int32; the subtraction
and addition are exact double arithmetic; the final `a & a` coerces back to
int32. -/
def jsHashStep (a : Int) (c : Nat) : Int :=
  toInt32 (toInt32 (a * 32) - a + (c : Int))

/-- The hash of `getVideoDuration`: reduce over the identifier's UTF-16 code
units with initial accumulator 0. -/
def jsHash (cs : List Nat) : Int :=
  cs.foldl jsHashStep 0

/-- Code units of an identifier string (all identifiers considered are BMP,
so one `Char` is one UTF-16 code unit). -/
def codeUnits (s : String) : List Nat :=
  s.data.map Char.toNat

/-- One step of the recurrence exactly as the spec writes it:
`acc = (acc * 31 - acc) + charCode`, truncated/wrapped to a sign-extended
32-bit signed integer at every accumulation step. -/
def specHashStep (a : Int) (c : Nat) : Int :=
  toInt32 (a * 31 - a + (c : Int))

/-- The spec's hash recurrence folded over the identifier's code units. -/
def specHash (cs : List Nat) : Int :=
  cs.foldl specHashStep 0

/-- The spec's recurrence with the multiplier corrected from 31 to 32
(`acc = (acc * 32 - acc) + charCode`, i.e. `acc * 31 + charCode`), wrapped
to a sign-extended 32-bit signed integer at every step. -/
def specHash32Step (a : Int) (c : Nat) : Int :=
  toInt32 (a * 32 - a + (c : Int))

/-- The corrected spec recurrence folded over the identifier's code units. -/
def specHash32 (cs : List Nat) : Int :=
  cs.foldl specHash32Step 0

/-- `getVideoDuration`'s deterministic branch (App.tsx lines 51-58):
`Math.abs(hash % 1200) + 60`, where `%` is JavaScript's truncated
remainder, modelled by `Int.tmod`. -/
def getVideoDuration (videoId : String) : Nat :=
  (Int.tmod (jsHash (codeUnits videoId)) 1200).natAbs + 60

theorem jsHashStep_eq_specHash32Step (a : Int) (c : Nat) :
    jsHashStep a c = specHash32Step a c := by
  unfold jsHashStep specHash32Step toInt32
  generalize a * 32 = m
  omega

theorem foldl_jsHashStep_eq (cs : List Nat) :
    ∀ a : Int, cs.foldl jsHashStep a = cs.foldl specHash32Step a := by
  induction cs with
  | nil => intro a; rfl
  | cons c cs ih =>
      intro a
      simp only [List.foldl_cons, jsHashStep_eq_specHash32Step, ih]

theorem jsHash_eq_specHash32 (cs : List Nat) : jsHash cs = specHash32 cs :=
  foldl_jsHashStep_eq cs 0

theorem natAbs_tmod_1200 (a : Int) : (Int.tmod a 1200).natAbs = a.natAbs % 1200 := by
  cases a with
  | ofNat m =>
      show (Int.tmod (Int.ofNat m) (Int.ofNat 1200)).natAbs = _
      simp [Int.tmod]
      omega
  | negSucc m =>
      show (Int.tmod (Int.negSucc m) (Int.ofNat 1200)).natAbs = _
      simp [Int.tmod, Int.natAbs_neg]
      omega

/-- C1: the spec's recurrence `acc = (acc * 31 - acc) + charCode` (wrapped to
int32 each step) does NOT equal the code's reduce `a = ((a << 5) - a) + c;
a & a`: they differ already on the two-character identifier "AA". -/
theorem specHash_ne_jsHash_AA : specHash (codeUnits "AA") ≠ jsHash (codeUnits "AA") := by
  decide

/-- C1 (amended): with the product corrected from `acc * 31` to `acc * 32` —
so the step is `acc = (acc * 32 - acc) + charCode`, wrapped to a
sign-extended 32-bit signed integer at every accumulation step — the
recurrence equals the hash computed by the code's reduce over the
identifier's code units, for every identifier string. -/
theorem hash_recurrence_eq_code_reduce (id : String) :
    specHash32 (codeUnits id) = jsHash (codeUnits id) :=
  (jsHash_eq_specHash32 (codeUnits id)).symm

/-- C2: for every 11-character identifier, the synthetic duration equals
`abs(hash) mod 1200 + 60`, lies in `[60, 1259]`, and the derivation is
deterministic: two calls with `dQw4w9WgXcQ` return the identical integer. -/
theorem duration_from_hash (id : String) (_h : id.data.length = 11) :
    getVideoDuration id = (jsHash (codeUnits id)).natAbs % 1200 + 60 ∧
    60 ≤ getVideoDuration id ∧
    getVideoDuration id ≤ 1259 ∧
    getVideoDuration "dQw4w9WgXcQ" = getVideoDuration "dQw4w9WgXcQ" := by
  refine ⟨?_, ?_, ?_, rfl⟩
  · unfold getVideoDuration
    rw [natAbs_tmod_1200]
  · unfold getVideoDuration
    omega
  · unfold getVideoDuration
    rw [natAbs_tmod_1200]
    omega

/-- Witness for C2 at the concrete identifier `dQw4w9WgXcQ`. -/
theorem duration_from_hash_witness :
    getVideoDuration "dQw4w9WgXcQ" =
      (jsHash (codeUnits "dQw4w9WgXcQ")).natAbs % 1200 + 60 ∧
    60 ≤ getVideoDuration "dQw4w9WgXcQ" ∧
    getVideoDuration "dQw4w9WgXcQ" ≤ 1259 ∧
    getVideoDuration "dQw4w9WgXcQ" = getVideoDuration "dQw4w9WgXcQ" :=
  duration_from_hash "dQw4w9WgXcQ" (by decide)

/-- The constant MP4 header written at offset 0 by `createMediaFile`
(App.tsx lines 158-165): the `ftyp` box signature (32 bytes) followed by
the `moov` box header (8 bytes). -/
def mp4Header : List Nat :=
  [0x00, 0x00, 0x00, 0x20, 0x66, 0x74, 0x79, 0x70,
   0x69, 0x73, 0x6F, 0x6D, 0x00, 0x00, 0x02, 0x00,
   0x69, 0x73, 0x6F, 0x6D, 0x69, 0x73, 0x6F, 0x32,
   0x61, 0x76, 0x63, 0x31, 0x6D, 0x70, 0x34, 0x31,
   0x00, 0x00, 0x00, 0x6D, 0x6D, 0x6F, 0x6F, 0x76]

/-- The MP4 branch of `createMediaFile` (App.tsx lines 152-177): a
204,800-byte buffer whose first bytes are `mp4Header` and whose byte at
every remaining offset `i` is `(i * 7 + duration) % 256`. -/
def createMp4 (duration : Nat) : List Nat :=
  (List.range (1024 * 200)).map fun i =>
    if i < mp4Header.length then mp4Header.getD i 0 else (i * 7 + duration) % 256

/-- The constant ID3v2.3 header written at offset 0 by the MP3 branch of
`createMediaFile` (App.tsx lines 185-187). -/
def id3Header : List Nat :=
  [0x49, 0x44, 0x33, 0x03, 0x00, 0x00, 0x00, 0x00, 0x00, 0x00]

/-- The constant MP3 frame-sync header written at offset 10 by the MP3
branch of `createMediaFile` (App.tsx lines 190-192). -/
def mp3FrameHeader : List Nat :=
  [0xFF, 0xFB, 0x90, 0x00]

/-- The MP3 branch of `createMediaFile` (App.tsx lines 178-209): a buffer of
`max (1024 * 50) (duration * 1000)` bytes with `id3Header` at offset 0,
`mp3FrameHeader` at offset 10, and the remaining offsets filled by the
floating-point pattern `Math.sin(i * 0.1) * 127 + 128`.  That filler is
floating-point and is abstracted as the parameter `filler`; none of the
verified properties depend on it. -/
def createMp3 (filler : Nat → Nat) (duration : Nat) : List Nat :=
  (List.range (max (1024 * 50) (duration * 1000))).map fun i =>
    if i < 10 then id3Header.getD i 0
    else if i < 14 then mp3FrameHeader.getD (i - 10) 0
    else filler i

/-- Download format, as selected by the UI tabs. -/
inductive Format where
  | mp4 : Format
  | mp3 : Format
deriving DecidableEq

/-- File extension of a format. -/
def Format.ext : Format → String
  | .mp4 => "mp4"
  | .mp3 => "mp3"

/-- `createMediaFile` (App.tsx lines 151-210), dispatching on the format. -/
def createMediaFile (filler : Nat → Nat) (format : Format) (duration : Nat) : List Nat :=
  match format with
  | .mp4 => createMp4 duration
  | .mp3 => createMp3 filler duration

theorem createMp4_length (d : Nat) : (createMp4 d).length = 204800 := by
  simp [createMp4]

theorem createMp4_getElem (d i : Nat) (h : i < 204800) :
    (createMp4 d)[i]? =
      some (if i < mp4Header.length then mp4Header.getD i 0 else (i * 7 + d) % 256) := by
  simp only [createMp4, List.getElem?_map, List.getElem?_range]
  have h2 : i < 1024 * 200 := by omega
  simp [h2]

/-- C6: for every requested duration, MP4 synthesis yields exactly 204,800
bytes, the initial 40 bytes are the literal constant header, every remaining
byte at offset `i` equals `(i * 7 + duration) % 256`, and the result is a
pure function of the duration (bit-identical across calls). -/
theorem createMp4_spec (d : Nat) :
    (createMp4 d).length = 204800 ∧
    (∀ i, i < 40 → (createMp4 d)[i]? = mp4Header[i]?) ∧
    (∀ i, 40 ≤ i → i < 204800 → (createMp4 d)[i]? = some ((i * 7 + d) % 256)) ∧
    createMp4 d = createMp4 d := by
  refine ⟨createMp4_length d, ?_, ?_, rfl⟩
  · intro i hi
    have hlen : i < mp4Header.length := by simp [mp4Header]; omega
    rw [createMp4_getElem d i (by omega)]
    simp [hlen, List.getElem?_eq_getElem, List.getD_eq_getElem]
  · intro i hge hlt
    have hlen : ¬ i < mp4Header.length := by simp [mp4Header]; omega
    rw [createMp4_getElem d i hlt]
    simp [hlen]

/-- Witness for C6 at duration 300, offsets 0 and 40. -/
theorem createMp4_spec_witness :
    (createMp4 300)[0]? = mp4Header[0]? ∧
    (createMp4 300)[40]? = some ((40 * 7 + 300) % 256) :=
  ⟨(createMp4_spec 300).2.1 0 (by norm_num),
   (createMp4_spec 300).2.2.1 40 (by norm_num) (by norm_num)⟩

/-- C7 counterexample: at duration 300 the byte at offset 1000 is
`(1000 * 7 + 300) % 256 = 132`, not 44 as the claim states. -/
theorem createMp4_300_byte1000_ne_44 : (createMp4 300).getD 1000 0 ≠ 44 := by
  rw [List.getD_eq_getElem?_getD, createMp4_getElem 300 1000 (by norm_num)]
  decide

/-- C7 (amended): MP4 synthesis at duration 300 produces a 204,800-byte
buffer whose first 32 bytes equal the fixed header constant and whose byte
at offset 1000 equals 132 (`(1000 * 7 + 300) % 256`). -/
theorem createMp4_300_spec :
    (createMp4 300).length = 204800 ∧
    (∀ i, i < 32 → (createMp4 300)[i]? = mp4Header[i]?) ∧
    (createMp4 300).getD 1000 0 = 132 := by
  refine ⟨createMp4_length 300, ?_, ?_⟩
  · intro i hi
    have hlen : i < mp4Header.length := by simp [mp4Header]; omega
    rw [createMp4_getElem 300 i (by omega)]
    simp [hlen, List.getElem?_eq_getElem, List.getD_eq_getElem]
  · rw [List.getD_eq_getElem?_getD, createMp4_getElem 300 1000 (by norm_num)]
    decide

/-- Witness for C7 (amended) at offset 0. -/
theorem createMp4_300_spec_witness : (createMp4 300)[0]? = mp4Header[0]? :=
  createMp4_300_spec.2.1 0 (by norm_num)

theorem createMp3_length (filler : Nat → Nat) (d : Nat) :
    (createMp3 filler d).length = max 51200 (d * 1000) := by
  simp [createMp3]

theorem createMp3_getElem (filler : Nat → Nat) (d i : Nat)
    (h : i < max 51200 (d * 1000)) :
    (createMp3 filler d)[i]? =
      some (if i < 10 then id3Header.getD i 0
            else if i < 14 then mp3FrameHeader.getD (i - 10) 0
            else filler i) := by
  simp only [createMp3, List.getElem?_map, List.getElem?_range]
  have h2 : i < max (1024 * 50) (d * 1000) := by
    simpa using h
  simp [h2]

/-- C8: for every requested duration and every filler pattern, MP3 synthesis
yields exactly `max 51200 (duration * 1000)` bytes, with the literal 10-byte
ID3 header at offset 0 and the literal 4-byte frame-sync header at offset
10; in particular duration 10 yields exactly 51,200 bytes. -/
theorem createMp3_spec (filler : Nat → Nat) (d : Nat) :
    (createMp3 filler d).length = max 51200 (d * 1000) ∧
    (∀ i, i < 10 → (createMp3 filler d)[i]? = id3Header[i]?) ∧
    (∀ j, j < 4 → (createMp3 filler d)[10 + j]? = mp3FrameHeader[j]?) ∧
    (createMp3 filler 10).length = 51200 := by
  refine ⟨createMp3_length filler d, ?_, ?_, ?_⟩
  · intro i hi
    have h1 : i < id3Header.length := by simp [id3Header]; omega
    rw [createMp3_getElem filler d i (by omega)]
    simp [hi, List.getElem?_eq_getElem, List.getD_eq_getElem, h1]
  · intro j hj
    have h1 : ¬ 10 + j < 10 := by omega
    have h2 : 10 + j < 14 := by omega
    have hj4 : j < mp3FrameHeader.length := by simp [mp3FrameHeader]; omega
    rw [createMp3_getElem filler d (10 + j) (by omega)]
    simp [h1, h2, List.getElem?_eq_getElem, List.getD_eq_getElem, hj4]
  · rw [createMp3_length]
    norm_num

/-- Witness for C8 at duration 10 and the zero filler, offsets 0 and 10. -/
theorem createMp3_spec_witness :
    (createMp3 (fun _ => 0) 10)[0]? = id3Header[0]? ∧
    (createMp3 (fun _ => 0) 10)[10 + 0]? = mp3FrameHeader[0]? :=
  ⟨(createMp3_spec (fun _ => 0) 10).2.1 0 (by norm_num),
   (createMp3_spec (fun _ => 0) 10).2.2.1 0 (by norm_num)⟩

/-- JavaScript's `\s` character class (the whitespace code points matched by
a regex `\s`), on BMP code units. -/
def jsWhitespace (c : Char) : Bool :=
  c.toNat = 9 || c.toNat = 10 || c.toNat = 11 || c.toNat = 12 || c.toNat = 13 ||
  c.toNat = 32 || c.toNat = 160 || c.toNat = 5760 ||
  (8192 ≤ c.toNat && c.toNat ≤ 8202) ||
  c.toNat = 8232 || c.toNat = 8233 || c.toNat = 8239 || c.toNat = 8287 ||
  c.toNat = 12288 || c.toNat = 65279

/-- ASCII alphanumeric: the class `[a-zA-Z0-9]`. -/
def isAsciiAlnum (c : Char) : Bool :=
  (0x61 ≤ c.toNat && c.toNat ≤ 0x7A) || (0x41 ≤ c.toNat && c.toNat ≤ 0x5A) ||
  (0x30 ≤ c.toNat && c.toNat ≤ 0x39)

/-- `replace(/\s+/g, '_')`: each maximal run of whitespace becomes a single
underscore.  The flag records whether the previous character was part of a
whitespace run already replaced. -/
def collapseWsAux : Bool → List Char → List Char
  | _, [] => []
  | inRun, c :: cs =>
      if jsWhitespace c then
        if inRun then collapseWsAux true cs else '_' :: collapseWsAux true cs
      else
        c :: collapseWsAux false cs

/-- `replace(/\s+/g, '_')` on a whole string. -/
def collapseWs (l : List Char) : List Char :=
  collapseWsAux false l

/-- The sanitization in `handleDownload` (App.tsx line 232):
`title.replace(/[^a-zA-Z0-9\s]/g, '').replace(/\s+/g, '_').substring(0, 50)`. -/
def sanitizedTitle (title : List Char) : List Char :=
  (collapseWs (title.filter fun c => isAsciiAlnum c || jsWhitespace c)).take 50

/-- `padStart(2, '0')`. -/
def padStart2 (s : String) : String :=
  if s.length < 2 then String.mk (List.replicate (2 - s.length) '0') ++ s else s

/-- `formatTime` (App.tsx lines 117-121): zero-padded `mm:ss`. -/
def formatTime (seconds : Nat) : String :=
  padStart2 (toString (seconds / 60)) ++ ":" ++ padStart2 (toString (seconds % 60))

/-- The download filename built in `handleDownload` (App.tsx line 233). -/
def downloadFilename (title : String) (startTime endTime : Nat) (format : Format) : String :=
  String.mk (sanitizedTitle title.data) ++ "_" ++ formatTime startTime ++ "-" ++
    formatTime endTime ++ "." ++ format.ext

/-- The download action as wired in the UI (App.tsx lines 213-236 and
427-435): the download button is disabled while processing or whenever
`trimRange[1] <= trimRange[0]`, and `handleDownload` returns without
producing anything when no video is loaded.  Otherwise it produces the
filename and the synthesized media buffer for the trimmed segment. -/
def attemptDownload (filler : Nat → Nat) (isProcessing hasVideo : Bool)
    (trimStart trimEnd : Nat) (title : String) (format : Format) :
    Option (String × List Nat) :=
  if isProcessing || decide (trimEnd ≤ trimStart) then none
  else if !hasVideo then none
  else some (downloadFilename title trimStart trimEnd format,
             createMediaFile filler format (trimEnd - trimStart))

/-- C5: whenever the trim range has `end ≤ start`, a download attempt is
blocked — no media buffer is produced and no file is offered — regardless of
the other UI state. -/
theorem download_blocked_on_bad_range (filler : Nat → Nat)
    (isProcessing hasVideo : Bool) (trimStart trimEnd : Nat)
    (title : String) (format : Format) (h : trimEnd ≤ trimStart) :
    attemptDownload filler isProcessing hasVideo trimStart trimEnd title format = none := by
  simp [attemptDownload, h]

/-- Witness for C5 at a concrete state with `end = start = 10`. -/
theorem download_blocked_on_bad_range_witness :
    attemptDownload (fun _ => 0) false true 10 10 "t" Format.mp4 = none :=
  download_blocked_on_bad_range (fun _ => 0) false true 10 10 "t" Format.mp4
    (by norm_num)

theorem mem_collapseWsAux (c : Char) :
    ∀ (l : List Char) (b : Bool), c ∈ collapseWsAux b l →
      c = '_' ∨ (c ∈ l ∧ jsWhitespace c = false) := by
  intro l
  induction l with
  | nil => intro b h; simp [collapseWsAux] at h
  | cons x xs ih =>
      intro b h
      by_cases hx : jsWhitespace x = true
      · cases b with
        | false =>
            simp [collapseWsAux, hx] at h
            rcases h with h1 | h1
            · exact Or.inl h1
            · rcases ih true h1 with h2 | h2
              · exact Or.inl h2
              · exact Or.inr ⟨List.mem_cons_of_mem x h2.1, h2.2⟩
        | true =>
            simp [collapseWsAux, hx] at h
            rcases ih true h with h2 | h2
            · exact Or.inl h2
            · exact Or.inr ⟨List.mem_cons_of_mem x h2.1, h2.2⟩
      · simp [collapseWsAux, hx] at h
        rcases h with h1 | h1
        · subst h1
          exact Or.inr ⟨List.mem_cons_self c xs, by simpa using hx⟩
        · rcases ih false h1 with h2 | h2
          · exact Or.inl h2
          · exact Or.inr ⟨List.mem_cons_of_mem x h2.1, h2.2⟩

/-- C9: the download filename is
`{sanitized-title}_{mm:ss-start}-{mm:ss-end}.{ext}`; sanitization keeps only
ASCII alphanumerics and whitespace, collapses each whitespace run to one
underscore, and truncates to 50 characters, so the sanitized title is at
most 50 characters and consists only of ASCII alphanumerics and
underscores; title `"Test: Video #1!"` with range `(0, 5)` in mp4 format
yields `Test_Video_1_00:00-00:05.mp4`. -/
theorem download_filename_spec (title : String) (c : Char)
    (hc : c ∈ sanitizedTitle title.data) :
    downloadFilename "Test: Video #1!" 0 5 Format.mp4 = "Test_Video_1_00:00-00:05.mp4" ∧
    (sanitizedTitle title.data).length ≤ 50 ∧
    (isAsciiAlnum c = true ∨ c = '_') := by
  refine ⟨by decide, ?_, ?_⟩
  · unfold sanitizedTitle
    exact List.length_take_le 50 _
  · have hc2 : c ∈ collapseWs (title.data.filter fun x => isAsciiAlnum x || jsWhitespace x) :=
      List.take_subset 50 _ hc
    rcases mem_collapseWsAux c _ false hc2 with h1 | h1
    · exact Or.inr h1
    · rcases h1 with ⟨hmem, hws⟩
      have hp := List.of_mem_filter hmem
      rcases Bool.or_eq_true_iff.mp hp with h2 | h2
      · exact Or.inl h2
      · rw [h2] at hws
        cases hws

/-- Witness for C9 at the concrete title `"Test: Video #1!"` and the
character `T` of its sanitized form. -/
theorem download_filename_spec_witness :
    downloadFilename "Test: Video #1!" 0 5 Format.mp4 = "Test_Video_1_00:00-00:05.mp4" ∧
    (sanitizedTitle "Test: Video #1!".data).length ≤ 50 ∧
    (isAsciiAlnum 'T' = true ∨ 'T' = '_') :=
  download_filename_spec "Test: Video #1!" 'T' (by decide)

/-- A character admitted by the regex capture class `[^"&?/\s]`. -/
def okChar (c : Char) : Bool :=
  !(c = '"' || c = '&' || c = '?' || c = '/' || jsWhitespace c)

/-- Match a single literal character, then continue with `k`. -/
def stripChar (c : Char) (k : List Char → Option (List Char)) :
    List Char → Option (List Char)
  | [] => none
  | x :: xs => if x = c then k xs else none

/-- Match a literal character sequence, then continue with `k`. -/
def stripLit : List Char → (List Char → Option (List Char)) → List Char → Option (List Char)
  | [], k, rest => k rest
  | _ :: _, _, [] => none
  | c :: cs, k, x :: xs => if x = c then stripLit cs k xs else none

/-- The capture group `([^"&?/\s]{11})` generalized to `n` characters:
consume exactly `n` characters of the class and return them. -/
def captureN : Nat → List Char → Option (List Char)
  | 0, _ => some []
  | _ + 1, [] => none
  | n + 1, c :: cs => if okChar c then (captureN n cs).map (fun r => c :: r) else none

/-- The regex's 11-character capture group. -/
def capture11 : List Char → Option (List Char) :=
  captureN 11

/-- Greedy `[^/]*` then `k`: a backtracking star that prefers consuming the
longest run of non-slash characters. -/
def nonSlashStar (k : List Char → Option (List Char)) :
    List Char → Option (List Char)
  | [] => k []
  | c :: cs => if c = '/' then k (c :: cs) else (nonSlashStar k cs <|> k (c :: cs))

/-- Greedy `[^/]+` then `k`. -/
def nonSlashPlus (k : List Char → Option (List Char)) :
    List Char → Option (List Char)
  | [] => none
  | c :: cs => if c = '/' then none else nonSlashStar k cs

/-- Greedy `.*` (any character except newline) then `k`. -/
def dotStarThen (k : List Char → Option (List Char)) :
    List Char → Option (List Char)
  | [] => k []
  | c :: cs => if c = '\n' then k (c :: cs) else (dotStarThen k cs <|> k (c :: cs))

/-- Greedy `.+` then `k`. -/
def dotPlusThen (k : List Char → Option (List Char)) :
    List Char → Option (List Char)
  | [] => none
  | c :: cs => if c = '\n' then none else dotStarThen k cs

/-- Match `[?&]v=` then `k`. -/
def qvEq (k : List Char → Option (List Char)) : List Char → Option (List Char)
  | c1 :: c2 :: c3 :: rest =>
      if (c1 = '?' || c1 = '&') && c2 = 'v' && c3 = '=' then k rest else none
  | _ => none

/-- First inner alternative after `youtube.com/`: `[^/]+\/.+\/` then `k`. -/
def innerAlt1 (k : List Char → Option (List Char)) : List Char → Option (List Char) :=
  nonSlashPlus (stripChar '/' (dotPlusThen (stripChar '/' k)))

/-- Second inner alternative after `youtube.com/`: `(?:v|e(?:mbed)?)\/` then
`k`, with the regex's backtracking order `v/`, `embed/`, `e/`. -/
def innerAlt2 (k : List Char → Option (List Char)) (l : List Char) : Option (List Char) :=
  stripLit ("v/".data) k l <|> stripLit ("embed/".data) k l <|> stripLit ("e/".data) k l

/-- Third inner alternative after `youtube.com/`: `.*[?&]v=` then `k`. -/
def innerAlt3 (k : List Char → Option (List Char)) : List Char → Option (List Char) :=
  dotStarThen (qvEq k)

/-- The inner alternation after `youtube.com/`, in the regex's order. -/
def innerAlts (l : List Char) : Option (List Char) :=
  innerAlt1 capture11 l <|> innerAlt2 capture11 l <|> innerAlt3 capture11 l

/-- Try the whole regex
`(?:youtube\.com\/(?:[^/]+\/.+\/|(?:v|e(?:mbed)?)\/|.*[?&]v=)|youtu\.be\/)([^"&?/\s]{11})`
anchored at the head of `l`, returning the capture group on success. -/
def matchAt (l : List Char) : Option (List Char) :=
  stripLit ("youtube.com/".data) innerAlts l
  <|> stripLit ("youtu.be/".data) capture11 l

/-- Scan left to right for the first position where the regex matches,
exactly as `String.prototype.match` finds the leftmost match. -/
def extractList : List Char → Option (List Char)
  | [] => none
  | c :: cs => matchAt (c :: cs) <|> extractList cs

/-- `extractVideoId` (App.tsx lines 36-40): the capture group of the first
match, or `none` when the regex does not match. -/
def extractVideoId (url : String) : Option String :=
  (extractList url.data).map String.mk


theorem stripLit_append (lit : List Char) (k : List Char → Option (List Char)) :
    ∀ rest, stripLit lit k (lit ++ rest) = k rest := by
  induction lit with
  | nil => intro rest; rfl
  | cons c cs ih => intro rest; simp [stripLit, ih]

theorem stripLit_cons_ne {c x : Char} {cs xs : List Char} {k : List Char → Option (List Char)}
    (h : ¬ x = c) : stripLit (c :: cs) k (x :: xs) = none := by
  simp [stripLit, h]

theorem stripChar_head (c : Char) (k : List Char → Option (List Char)) (xs : List Char) :
    stripChar c k (c :: xs) = k xs := by
  simp [stripChar]

theorem stripChar_ne (c x : Char) (k : List Char → Option (List Char)) (xs : List Char)
    (h : ¬ x = c) : stripChar c k (x :: xs) = none := by
  simp [stripChar, h]

theorem stripChar_slash_none (k : List Char → Option (List Char)) (l r : List Char)
    (hl : '/' ∉ l) (hr : r <:+ l) : stripChar '/' k r = none := by
  cases r with
  | nil => rfl
  | cons x xs =>
      have hx : x ∈ l := hr.subset (List.mem_cons_self x xs)
      exact stripChar_ne _ _ _ _ (fun he => hl (he ▸ hx))

theorem nonSlashStar_cons_ne (k : List Char → Option (List Char)) (c : Char) (cs : List Char)
    (h : ¬ c = '/') :
    nonSlashStar k (c :: cs) = (nonSlashStar k cs <|> k (c :: cs)) := by
  simp [nonSlashStar, h]

theorem nonSlashStar_slash (k : List Char → Option (List Char)) (cs : List Char) :
    nonSlashStar k ('/' :: cs) = k ('/' :: cs) := by
  simp [nonSlashStar]

theorem nonSlashPlus_cons_ne (k : List Char → Option (List Char)) (c : Char) (cs : List Char)
    (h : ¬ c = '/') : nonSlashPlus k (c :: cs) = nonSlashStar k cs := by
  simp [nonSlashPlus, h]

theorem nonSlashStar_none (k : List Char → Option (List Char)) :
    ∀ l : List Char, (∀ r, r <:+ l → k r = none) → nonSlashStar k l = none := by
  intro l
  induction l with
  | nil =>
      intro h
      have h0 := h [] (List.suffix_refl [])
      simpa [nonSlashStar] using h0
  | cons c cs ih =>
      intro h
      have hk : k (c :: cs) = none := h (c :: cs) (List.suffix_refl _)
      by_cases hc : c = '/'
      · subst hc; simp [nonSlashStar, hk]
      · have hcs : nonSlashStar k cs = none :=
          ih (fun r hr => h r (hr.trans (List.suffix_cons c cs)))
        simp [nonSlashStar, hc, hcs, hk]

theorem dotStar_cons (k : List Char → Option (List Char)) (c : Char) (cs : List Char)
    (h : ¬ c = '\n') :
    dotStarThen k (c :: cs) = (dotStarThen k cs <|> k (c :: cs)) := by
  simp [dotStarThen, h]

theorem dotStarThen_none (k : List Char → Option (List Char)) :
    ∀ l : List Char, (∀ r, r <:+ l → k r = none) → dotStarThen k l = none := by
  intro l
  induction l with
  | nil =>
      intro h
      have h0 := h [] (List.suffix_refl [])
      simpa [dotStarThen] using h0
  | cons c cs ih =>
      intro h
      have hk : k (c :: cs) = none := h (c :: cs) (List.suffix_refl _)
      by_cases hc : c = '\n'
      · subst hc; simp [dotStarThen, hk]
      · have hcs : dotStarThen k cs = none :=
          ih (fun r hr => h r (hr.trans (List.suffix_cons c cs)))
        simp [dotStarThen, hc, hcs, hk]

theorem dotPlus_cons_ne (k : List Char → Option (List Char)) (c : Char) (cs : List Char)
    (h : ¬ c = '\n') : dotPlusThen k (c :: cs) = dotStarThen k cs := by
  simp [dotPlusThen, h]

theorem qvEq_none_of_head (k : List Char → Option (List Char)) (c : Char) (t : List Char)
    (hc : (c = '?' || c = '&') = false) : qvEq k (c :: t) = none := by
  cases t with
  | nil => rfl
  | cons c2 t2 =>
      cases t2 with
      | nil => rfl
      | cons c3 t3 => simp [qvEq, hc]

theorem okChar_facts (c : Char) (h : okChar c = true) :
    ¬ c = '&' ∧ ¬ c = '?' ∧ ¬ c = '/' ∧ jsWhitespace c = false := by
  simp only [okChar, Bool.not_eq_eq_eq_not, Bool.not_true, Bool.or_eq_false_iff,
    decide_eq_false_iff_not] at h
  exact ⟨h.1.1.1.2, h.1.1.2, h.1.2, h.2⟩

theorem okChar_ne_newline (c : Char) (h : okChar c = true) : ¬ c = '\n' := by
  intro he
  subst he
  exact absurd h (by decide)

theorem not_slash_mem_of_ok (l : List Char) (hok : ∀ c ∈ l, okChar c = true) : '/' ∉ l := by
  intro hm
  exact (okChar_facts '/' (hok '/' hm)).2.2.1 rfl

theorem captureN_eq_take :
    ∀ (n : Nat) (l : List Char), n ≤ l.length → (∀ c ∈ l, okChar c = true) →
      captureN n l = some (l.take n) := by
  intro n
  induction n with
  | zero => intro l _ _; simp [captureN]
  | succ m ih =>
      intro l hlen hok
      cases l with
      | nil => simp at hlen
      | cons c cs =>
          have hc : okChar c = true := hok c (List.mem_cons_self c cs)
          have hm : captureN m cs = some (cs.take m) :=
            ih cs (by simpa using hlen) (fun x hx => hok x (List.mem_cons_of_mem c hx))
          simp [captureN, hc, hm]

theorem capture11_eq (id : List Char) (hlen : id.length = 11)
    (hok : ∀ c ∈ id, okChar c = true) : capture11 id = some id := by
  have h := captureN_eq_take 11 id (by omega) hok
  have ht : id.take 11 = id := by
    rw [← hlen]
    exact List.take_length id
  rw [ht] at h
  exact h

theorem capture11_take (run : List Char) (hlen : 11 ≤ run.length)
    (hok : ∀ c ∈ run, okChar c = true) : capture11 run = some (run.take 11) :=
  captureN_eq_take 11 run hlen hok

theorem qvEq_none_suffix (k : List Char → Option (List Char)) (l r : List Char)
    (hok : ∀ c ∈ l, okChar c = true) (hr : r <:+ l) : qvEq k r = none := by
  cases r with
  | nil => rfl
  | cons c t =>
      have hc : okChar c = true := hok c (hr.subset (List.mem_cons_self c t))
      have hf := okChar_facts c hc
      apply qvEq_none_of_head
      simp [hf.1, hf.2.1]

theorem innerAlt1_none (k : List Char → Option (List Char)) (l : List Char)
    (hl : '/' ∉ l) : innerAlt1 k l = none := by
  unfold innerAlt1
  cases l with
  | nil => rfl
  | cons c cs =>
      have hc : ¬ c = '/' := fun he => hl (he ▸ List.mem_cons_self c cs)
      rw [nonSlashPlus_cons_ne _ _ _ hc]
      apply nonSlashStar_none
      intro r hr
      exact stripChar_slash_none _ cs r (fun hm => hl (List.mem_cons_of_mem c hm)) hr

theorem innerAlt2_none_head (k : List Char → Option (List Char)) (c : Char) (cs : List Char)
    (h1 : ¬ c = 'v') (h2 : ¬ c = 'e') : innerAlt2 k (c :: cs) = none := by
  unfold innerAlt2
  have hv : ("v/".data) = 'v' :: ['/'] := rfl
  have he : ("embed/".data) = 'e' :: ("mbed/".data) := rfl
  have he2 : ("e/".data) = 'e' :: ['/'] := rfl
  rw [hv, he, he2, stripLit_cons_ne h1, stripLit_cons_ne h2, stripLit_cons_ne h2]
  rfl

theorem matchAt_cons_ne (c : Char) (cs : List Char) (h : ¬ c = 'y') :
    matchAt (c :: cs) = none := by
  unfold matchAt
  have h1 : ("youtube.com/".data) = 'y' :: ("outube.com/".data) := rfl
  have h2 : ("youtu.be/".data) = 'y' :: ("outu.be/".data) := rfl
  rw [h1, h2, stripLit_cons_ne h, stripLit_cons_ne h]
  rfl

theorem extractList_cons_of_ne (c : Char) (cs : List Char) (h : ¬ c = 'y') :
    extractList (c :: cs) = extractList cs := by
  simp [extractList, matchAt_cons_ne c cs h]

theorem extractList_cons (c : Char) (cs : List Char) :
    extractList (c :: cs) = (matchAt (c :: cs) <|> extractList cs) := rfl

theorem matchAt_watch (id : List Char) (hlen : id.length = 11)
    (hok : ∀ c ∈ id, okChar c = true) :
    matchAt ('y':: 'o':: 'u':: 't':: 'u':: 'b':: 'e':: '.':: 'c':: 'o':: 'm':: '/':: 'w':: 'a':: 't':: 'c':: 'h':: '?':: 'v':: '='::id) = some id := by
  have hx : '/' ∉ (("watch?v=".data) ++ id) := by
    intro hm
    rcases List.mem_append.mp hm with hm | hm
    · exact absurd hm (by decide)
    · exact not_slash_mem_of_ok id hok hm
  have e1 : innerAlt1 capture11 (("watch?v=".data) ++ id) = none := innerAlt1_none _ _ hx
  have e2 : innerAlt2 capture11 (("watch?v=".data) ++ id) = none := by
    show innerAlt2 capture11 ('w' :: (("atch?v=".data) ++ id)) = none
    exact innerAlt2_none_head _ _ _ (by decide) (by decide)
  have hid : dotStarThen (qvEq capture11) id = none :=
    dotStarThen_none _ id (fun r hr => qvEq_none_suffix _ id r hok hr)
  have h8 : dotStarThen (qvEq capture11) ('='::id) = none := by
    rw [dotStar_cons _ _ _ (by decide), hid, qvEq_none_of_head _ _ _ (by decide)]
    rfl
  have h7 : dotStarThen (qvEq capture11) ('v':: '='::id) = none := by
    rw [dotStar_cons _ _ _ (by decide), h8, qvEq_none_of_head _ _ _ (by decide)]
    rfl
  have hqv : qvEq capture11 ('?':: 'v':: '='::id) = some id := by
    simp [qvEq, capture11_eq id hlen hok]
  have h6 : dotStarThen (qvEq capture11) ('?':: 'v':: '='::id) = some id := by
    rw [dotStar_cons _ _ _ (by decide), h7, hqv]
    rfl
  have h5 : dotStarThen (qvEq capture11) ('h':: '?':: 'v':: '='::id) = some id := by
    rw [dotStar_cons _ _ _ (by decide), h6]
    rfl
  have h4 : dotStarThen (qvEq capture11) ('c':: 'h':: '?':: 'v':: '='::id) = some id := by
    rw [dotStar_cons _ _ _ (by decide), h5]
    rfl
  have h3 : dotStarThen (qvEq capture11) ('t':: 'c':: 'h':: '?':: 'v':: '='::id) = some id := by
    rw [dotStar_cons _ _ _ (by decide), h4]
    rfl
  have h2 : dotStarThen (qvEq capture11) ('a':: 't':: 'c':: 'h':: '?':: 'v':: '='::id) = some id := by
    rw [dotStar_cons _ _ _ (by decide), h3]
    rfl
  have e3 : innerAlt3 capture11 (("watch?v=".data) ++ id) = some id := by
    show dotStarThen (qvEq capture11) ('w':: 'a':: 't':: 'c':: 'h':: '?':: 'v':: '='::id) = some id
    rw [dotStar_cons _ _ _ (by decide), h2]
    rfl
  show matchAt (("youtube.com/".data) ++ (("watch?v=".data) ++ id)) = some id
  unfold matchAt
  simp only [stripLit_append]
  unfold innerAlts
  rw [e1, e2, e3]
  rfl

theorem matchAt_shortUrl (rest a : List Char) (hcap : capture11 rest = some a) :
    matchAt ('y':: 'o':: 'u':: 't':: 'u':: '.':: 'b':: 'e':: '/'::rest) = some a := by
  have h1 : ∀ k : List Char → Option (List Char),
      stripLit ("youtube.com/".data) k (("youtu.be/".data) ++ rest) = none := by
    intro k
    show stripLit ('y':: 'o':: 'u':: 't':: 'u':: 'b':: 'e':: '.':: 'c':: 'o':: 'm':: '/'::([] : List Char)) k
        ('y':: 'o':: 'u':: 't':: 'u':: '.'::('b':: 'e':: '/'::rest)) = none
    simp [stripLit]
  show matchAt (("youtu.be/".data) ++ rest) = some a
  unfold matchAt
  rw [h1, stripLit_append, hcap]
  rfl

theorem matchAt_embed (id : List Char) (hlen : id.length = 11)
    (hok : ∀ c ∈ id, okChar c = true) :
    matchAt ('y':: 'o':: 'u':: 't':: 'u':: 'b':: 'e':: '.':: 'c':: 'o':: 'm':: '/':: 'e':: 'm':: 'b':: 'e':: 'd':: '/'::id) = some id := by
  cases id with
  | nil => simp at hlen
  | cons c0 id1 =>
      have hok1 : ∀ c ∈ id1, okChar c = true := fun c hc => hok c (List.mem_cons_of_mem c0 hc)
      have hc0 : okChar c0 = true := hok c0 (List.mem_cons_self c0 id1)
      have hdp : dotPlusThen (stripChar '/' capture11) (c0 :: id1) = none := by
        rw [dotPlus_cons_ne _ _ _ (okChar_ne_newline c0 hc0)]
        exact dotStarThen_none _ id1 (fun r hr =>
          stripChar_slash_none _ id1 r (not_slash_mem_of_ok id1 hok1) hr)
      have e1 : innerAlt1 capture11 (("embed/".data) ++ (c0 :: id1)) = none := by
        show nonSlashPlus (stripChar '/' (dotPlusThen (stripChar '/' capture11)))
            ('e':: 'm':: 'b':: 'e':: 'd':: '/'::c0::id1) = none
        rw [nonSlashPlus_cons_ne _ _ _ (by decide)]
        rw [nonSlashStar_cons_ne _ _ _ (by decide)]
        rw [nonSlashStar_cons_ne _ _ _ (by decide)]
        rw [nonSlashStar_cons_ne _ _ _ (by decide)]
        rw [nonSlashStar_cons_ne _ _ _ (by decide)]
        rw [nonSlashStar_slash, stripChar_head, hdp]
        rw [stripChar_ne '/' 'd' _ _ (by decide), stripChar_ne '/' 'e' _ _ (by decide),
            stripChar_ne '/' 'b' _ _ (by decide), stripChar_ne '/' 'm' _ _ (by decide)]
        rfl
      have hcap : capture11 (c0 :: id1) = some (c0 :: id1) := capture11_eq _ hlen hok
      have e2 : innerAlt2 capture11 (("embed/".data) ++ (c0 :: id1)) = some (c0 :: id1) := by
        show innerAlt2 capture11 ('e':: 'm':: 'b':: 'e':: 'd':: '/'::c0::id1) = some (c0 :: id1)
        unfold innerAlt2
        have hv : ("v/".data) = 'v' :: ['/'] := rfl
        rw [hv, stripLit_cons_ne (show ¬ 'e' = 'v' by decide)]
        have hemb : stripLit ("embed/".data) capture11 ('e':: 'm':: 'b':: 'e':: 'd':: '/'::c0::id1) =
            capture11 (c0 :: id1) := by
          show stripLit ("embed/".data) capture11 (("embed/".data) ++ (c0 :: id1)) =
              capture11 (c0 :: id1)
          exact stripLit_append _ _ _
        rw [hemb, hcap]
        rfl
      show matchAt (("youtube.com/".data) ++ (("embed/".data) ++ (c0 :: id1))) = some (c0 :: id1)
      unfold matchAt
      simp only [stripLit_append]
      unfold innerAlts
      rw [e1, e2]
      rfl

theorem extract_watch_aux (id : List Char) (hlen : id.length = 11)
    (hok : ∀ c ∈ id, okChar c = true) :
    extractList (("https://www.youtube.com/watch?v=".data) ++ id) = some id := by
  show extractList ('h':: 't':: 't':: 'p':: 's':: ':':: '/':: '/':: 'w':: 'w':: 'w':: '.':: 'y':: 'o':: 'u':: 't':: 'u':: 'b':: 'e':: '.':: 'c':: 'o':: 'm':: '/':: 'w':: 'a':: 't':: 'c':: 'h':: '?':: 'v':: '='::id) = some id
  rw [extractList_cons_of_ne 'h' _ (by decide),
      extractList_cons_of_ne 't' _ (by decide),
      extractList_cons_of_ne 't' _ (by decide),
      extractList_cons_of_ne 'p' _ (by decide),
      extractList_cons_of_ne 's' _ (by decide),
      extractList_cons_of_ne ':' _ (by decide),
      extractList_cons_of_ne '/' _ (by decide),
      extractList_cons_of_ne '/' _ (by decide),
      extractList_cons_of_ne 'w' _ (by decide),
      extractList_cons_of_ne 'w' _ (by decide),
      extractList_cons_of_ne 'w' _ (by decide),
      extractList_cons_of_ne '.' _ (by decide)]
  rw [extractList_cons, matchAt_watch id hlen hok]
  rfl

theorem extract_short_aux (rest a : List Char) (hcap : capture11 rest = some a) :
    extractList (("https://youtu.be/".data) ++ rest) = some a := by
  show extractList ('h':: 't':: 't':: 'p':: 's':: ':':: '/':: '/':: 'y':: 'o':: 'u':: 't':: 'u':: '.':: 'b':: 'e':: '/'::rest) = some a
  rw [extractList_cons_of_ne 'h' _ (by decide),
      extractList_cons_of_ne 't' _ (by decide),
      extractList_cons_of_ne 't' _ (by decide),
      extractList_cons_of_ne 'p' _ (by decide),
      extractList_cons_of_ne 's' _ (by decide),
      extractList_cons_of_ne ':' _ (by decide),
      extractList_cons_of_ne '/' _ (by decide),
      extractList_cons_of_ne '/' _ (by decide)]
  rw [extractList_cons, matchAt_shortUrl rest a hcap]
  rfl

theorem extract_embed_aux (id : List Char) (hlen : id.length = 11)
    (hok : ∀ c ∈ id, okChar c = true) :
    extractList (("https://www.youtube.com/embed/".data) ++ id) = some id := by
  show extractList ('h':: 't':: 't':: 'p':: 's':: ':':: '/':: '/':: 'w':: 'w':: 'w':: '.':: 'y':: 'o':: 'u':: 't':: 'u':: 'b':: 'e':: '.':: 'c':: 'o':: 'm':: '/':: 'e':: 'm':: 'b':: 'e':: 'd':: '/'::id) = some id
  rw [extractList_cons_of_ne 'h' _ (by decide),
      extractList_cons_of_ne 't' _ (by decide),
      extractList_cons_of_ne 't' _ (by decide),
      extractList_cons_of_ne 'p' _ (by decide),
      extractList_cons_of_ne 's' _ (by decide),
      extractList_cons_of_ne ':' _ (by decide),
      extractList_cons_of_ne '/' _ (by decide),
      extractList_cons_of_ne '/' _ (by decide),
      extractList_cons_of_ne 'w' _ (by decide),
      extractList_cons_of_ne 'w' _ (by decide),
      extractList_cons_of_ne 'w' _ (by decide),
      extractList_cons_of_ne '.' _ (by decide)]
  rw [extractList_cons, matchAt_embed id hlen hok]
  rfl

/-- C3: for every 11-character token of the capture class, extraction from a
canonical watch URL (`v=` query parameter), a shortened `youtu.be` URL, and
an embed-path URL returns exactly that token; in particular both example
URLs yield `dQw4w9WgXcQ`. -/
theorem extract_accepted_urls (id : List Char) (hlen : id.length = 11)
    (hok : ∀ c ∈ id, okChar c = true) :
    extractList (("https://www.youtube.com/watch?v=".data) ++ id) = some id ∧
    extractList (("https://youtu.be/".data) ++ id) = some id ∧
    extractList (("https://www.youtube.com/embed/".data) ++ id) = some id ∧
    extractVideoId ("https://www.youtube.com/watch?v=dQw4w9WgXcQ") = some ("dQw4w9WgXcQ") ∧
    extractVideoId ("https://youtu.be/dQw4w9WgXcQ") = some ("dQw4w9WgXcQ") :=
  ⟨extract_watch_aux id hlen hok,
   extract_short_aux id id (capture11_eq id hlen hok),
   extract_embed_aux id hlen hok,
   by decide, by decide⟩

/-- Witness for C3 at the identifier `dQw4w9WgXcQ`. -/
theorem extract_accepted_urls_witness :
    extractList (("https://www.youtube.com/watch?v=".data) ++ ("dQw4w9WgXcQ".data)) =
      some ("dQw4w9WgXcQ".data) ∧
    extractList (("https://youtu.be/".data) ++ ("dQw4w9WgXcQ".data)) =
      some ("dQw4w9WgXcQ".data) ∧
    extractList (("https://www.youtube.com/embed/".data) ++ ("dQw4w9WgXcQ".data)) =
      some ("dQw4w9WgXcQ".data) ∧
    extractVideoId ("https://www.youtube.com/watch?v=dQw4w9WgXcQ") = some ("dQw4w9WgXcQ") ∧
    extractVideoId ("https://youtu.be/dQw4w9WgXcQ") = some ("dQw4w9WgXcQ") :=
  extract_accepted_urls ("dQw4w9WgXcQ".data) (by decide) (by decide)

/-- C10: an accepted URL prefix followed by 12 or more characters outside
the excluded class does not make extraction fail: it returns the first 11
of those characters, as on `https://youtu.be/abcdefghijkl`. -/
theorem extract_overlong_token (run : List Char) (hlen : 12 ≤ run.length)
    (hok : ∀ c ∈ run, okChar c = true) :
    extractList (("https://youtu.be/".data) ++ run) = some (run.take 11) ∧
    extractVideoId ("https://youtu.be/abcdefghijkl") = some ("abcdefghijk") :=
  ⟨extract_short_aux run (run.take 11) (capture11_take run (by omega) hok),
   by decide⟩

/-- Witness for C10 at the 12-character run `abcdefghijkl`. -/
theorem extract_overlong_token_witness :
    extractList (("https://youtu.be/".data) ++ ("abcdefghijkl".data)) =
      some (("abcdefghijkl".data).take 11) ∧
    extractVideoId ("https://youtu.be/abcdefghijkl") = some ("abcdefghijk") :=
  extract_overlong_token ("abcdefghijkl".data) (by decide) (by decide)

theorem orElse_eq_some_cases {α : Type} (x y : Option α) (r : α)
    (h : (x <|> y) = some r) : x = some r ∨ y = some r := by
  cases x with
  | none => exact Or.inr h
  | some b => exact Or.inl h

theorem captureN_some :
    ∀ (n : Nat) (l r : List Char), captureN n l = some r →
      r.length = n ∧ ∀ c ∈ r, okChar c = true := by
  intro n
  induction n with
  | zero =>
      intro l r h
      simp [captureN] at h
      subst h
      simp
  | succ m ih =>
      intro l r h
      cases l with
      | nil => simp [captureN] at h
      | cons c cs =>
          by_cases hc : okChar c = true
          · simp [captureN, hc] at h
            obtain ⟨a, ha, heq⟩ := h
            subst heq
            obtain ⟨h1, h2⟩ := ih cs a ha
            refine ⟨by simp [h1], ?_⟩
            intro x hx
            rcases List.mem_cons.mp hx with hx | hx
            · subst hx; exact hc
            · exact h2 x hx
          · simp [captureN, hc] at h

theorem capture11_some (s r : List Char) (h : capture11 s = some r) :
    r.length = 11 ∧ ∀ c ∈ r, okChar c = true :=
  captureN_some 11 s r h

theorem stripLit_some :
    ∀ (lit l r : List Char) (k : List Char → Option (List Char)),
      stripLit lit k l = some r → ∃ s, k s = some r := by
  intro lit
  induction lit with
  | nil => intro l r k h; exact ⟨l, h⟩
  | cons c cs ih =>
      intro l r k h
      cases l with
      | nil => simp [stripLit] at h
      | cons x xs =>
          by_cases hx : x = c
          · simp only [stripLit, if_pos hx] at h
            exact ih xs r k h
          · simp [stripLit, hx] at h

theorem stripChar_some (c : Char) (l r : List Char)
    (k : List Char → Option (List Char)) (h : stripChar c k l = some r) :
    ∃ s, k s = some r := by
  cases l with
  | nil => simp [stripChar] at h
  | cons x xs =>
      by_cases hx : x = c
      · simp only [stripChar, if_pos hx] at h
        exact ⟨xs, h⟩
      · simp [stripChar, hx] at h

theorem nonSlashStar_some (k : List Char → Option (List Char)) :
    ∀ (l r : List Char), nonSlashStar k l = some r → ∃ s, k s = some r := by
  intro l
  induction l with
  | nil => intro r h; exact ⟨[], h⟩
  | cons c cs ih =>
      intro r h
      by_cases hc : c = '/'
      · simp only [nonSlashStar, if_pos hc] at h
        exact ⟨c :: cs, h⟩
      · simp only [nonSlashStar, if_neg hc] at h
        rcases orElse_eq_some_cases _ _ _ h with h1 | h1
        · exact ih r h1
        · exact ⟨c :: cs, h1⟩

theorem nonSlashPlus_some (k : List Char → Option (List Char)) (l r : List Char)
    (h : nonSlashPlus k l = some r) : ∃ s, k s = some r := by
  cases l with
  | nil => simp [nonSlashPlus] at h
  | cons c cs =>
      by_cases hc : c = '/'
      · simp [nonSlashPlus, hc] at h
      · simp only [nonSlashPlus, if_neg hc] at h
        exact nonSlashStar_some k cs r h

theorem dotStarThen_some (k : List Char → Option (List Char)) :
    ∀ (l r : List Char), dotStarThen k l = some r → ∃ s, k s = some r := by
  intro l
  induction l with
  | nil => intro r h; exact ⟨[], h⟩
  | cons c cs ih =>
      intro r h
      by_cases hc : c = '\n'
      · simp only [dotStarThen, if_pos hc] at h
        exact ⟨c :: cs, h⟩
      · simp only [dotStarThen, if_neg hc] at h
        rcases orElse_eq_some_cases _ _ _ h with h1 | h1
        · exact ih r h1
        · exact ⟨c :: cs, h1⟩

theorem dotPlusThen_some (k : List Char → Option (List Char)) (l r : List Char)
    (h : dotPlusThen k l = some r) : ∃ s, k s = some r := by
  cases l with
  | nil => simp [dotPlusThen] at h
  | cons c cs =>
      by_cases hc : c = '\n'
      · simp [dotPlusThen, hc] at h
      · simp only [dotPlusThen, if_neg hc] at h
        exact dotStarThen_some k cs r h

theorem qvEq_some (k : List Char → Option (List Char)) (l r : List Char)
    (h : qvEq k l = some r) : ∃ s, k s = some r := by
  cases l with
  | nil => simp [qvEq] at h
  | cons c1 t1 =>
      cases t1 with
      | nil => simp [qvEq] at h
      | cons c2 t2 =>
          cases t2 with
          | nil => simp [qvEq] at h
          | cons c3 t3 =>
              simp only [qvEq] at h
              split at h
              · exact ⟨t3, h⟩
              · cases h

theorem innerAlts_some (l r : List Char) (h : innerAlts l = some r) :
    ∃ s, capture11 s = some r := by
  unfold innerAlts at h
  rcases orElse_eq_some_cases _ _ _ h with h1 | h1
  · obtain ⟨s1, hs1⟩ := nonSlashPlus_some _ _ _ h1
    obtain ⟨s2, hs2⟩ := stripChar_some _ _ _ _ hs1
    obtain ⟨s3, hs3⟩ := dotPlusThen_some _ _ _ hs2
    exact stripChar_some _ _ _ _ hs3
  rcases orElse_eq_some_cases _ _ _ h1 with h2 | h2
  · unfold innerAlt2 at h2
    rcases orElse_eq_some_cases _ _ _ h2 with h3 | h3
    · exact stripLit_some _ _ _ _ h3
    rcases orElse_eq_some_cases _ _ _ h3 with h4 | h4
    · exact stripLit_some _ _ _ _ h4
    · exact stripLit_some _ _ _ _ h4
  · obtain ⟨s1, hs1⟩ := dotStarThen_some _ _ _ h2
    exact qvEq_some _ _ _ hs1

theorem matchAt_some (l r : List Char) (h : matchAt l = some r) :
    ∃ s, capture11 s = some r := by
  unfold matchAt at h
  rcases orElse_eq_some_cases _ _ _ h with h1 | h1
  · obtain ⟨s, hs⟩ := stripLit_some _ _ _ _ h1
    exact innerAlts_some s r hs
  · exact stripLit_some _ _ _ _ h1

theorem extractList_some :
    ∀ (l r : List Char), extractList l = some r → ∃ s, capture11 s = some r := by
  intro l
  induction l with
  | nil => intro r h; cases h
  | cons c cs ih =>
      intro r h
      rw [extractList_cons] at h
      rcases orElse_eq_some_cases _ _ _ h with h1 | h1
      · exact matchAt_some _ r h1
      · exact ih r h1

/-- C4: inputs that do not match an accepted URL shape — the empty string,
malformed input, a too-short candidate token, an unrecognized host —
yield `none`; moreover any successful extraction returns an 11-character
token of the capture class, so no input can yield an identifier of the
wrong length or with excluded characters. -/
theorem extract_rejects_nonmatching :
    extractVideoId ("") = none ∧
    extractVideoId ("not a url") = none ∧
    extractVideoId ("https://youtu.be/short") = none ∧
    extractVideoId ("https://www.youtube.com/watch?v=abc") = none ∧
    extractVideoId ("https://vimeo.com/12345678901") = none ∧
    ∀ l r : List Char, extractList l = some r →
      r.length = 11 ∧ ∀ c ∈ r, okChar c = true := by
  refine ⟨by decide, by decide, by decide, by decide, by decide, ?_⟩
  intro l r h
  obtain ⟨s, hs⟩ := extractList_some l r h
  exact capture11_some s r hs

/-- Witness for C4's universal part at a concrete successful extraction. -/
theorem extract_rejects_nonmatching_witness :
    ("dQw4w9WgXcQ".data).length = 11 ∧ ∀ c ∈ ("dQw4w9WgXcQ".data), okChar c = true :=
  extract_rejects_nonmatching.2.2.2.2.2 ("https://youtu.be/dQw4w9WgXcQ".data)
    ("dQw4w9WgXcQ".data) (by decide)

end YtTrim
